import Mathlib

/-!
Verification of the bulk e-commerce CSV generator
(`src/data/generate_bigdata.py`) and of the theming module
(`src/themes/plot_arrakis_night_style.py`).

Modelling conventions:
* Values are carried as exact rationals (ℚ).  `np.round(x, 2)` is modelled
  by half-to-even rounding of `100 * x`, which is NumPy's tie-breaking
  rule; the result is kept as the exact two-decimal value, which carries
  the same information as the stored float64 (at this script's magnitudes
  distinct cent values round to distinct doubles).  Where a claim depends
  on float64 arithmetic itself — the `total` column of line 32 is a
  float64 product — the binary64 rounding map `fl64` (round to nearest,
  ties to even, 53-bit significand) is applied explicitly.
* The seeded NumPy PRNG is modelled as a raw draw stream `Nat → Nat`:
  draw number `i` (in the order the script consumes draws) yields the raw
  nonnegative integer `s i`.  Each vectorised call consuming `n` draws
  occupies the next block of `n` stream positions.
* Calendar arithmetic (`datetime(2022, 1, 1) + timedelta(days=o)`) is
  modelled on day counts since 1970-01-01, with the standard
  civil-from-days conversion for serialisation.
-/

set_option maxRecDepth 4000

namespace BigData

/-- A raw pseudo-random draw stream: the values produced by the PRNG after
seeding, in consumption order. -/
abbrev RandStream : Type := Nat → Nat

/-- Models `np.random.randint(lo, hi)` consuming raw draw `r`: an integer
in `[lo, hi)` whenever `lo < hi`. -/
def randint (lo hi r : ℕ) : ℕ := lo + r % (hi - lo)

/-- Models `np.random.choice(xs)` consuming raw draw `r`: one element of
`xs`, selected by index. -/
def npChoice (xs : List String) (r : ℕ) : String := xs.getD (r % xs.length) ""

/-- Models `np.random.uniform(lo, hi)` consuming raw draw `r`: NumPy forms
a 53-bit integer `k` and returns `lo + (hi - lo) * k / 2 ^ 53`, modelled
here in exact rational arithmetic. -/
def npUniform (lo hi : ℚ) (r : ℕ) : ℚ :=
  lo + (hi - lo) * ((r % 2 ^ 53 : ℕ) : ℚ) / 2 ^ 53

/-- Round a rational to the nearest integer with ties to even: the
rounding rule of `np.round`. -/
def rint (x : ℚ) : ℤ :=
  if x - x.floor < 1 / 2 then x.floor
  else if 1 / 2 < x - x.floor then x.floor + 1
  else if x.floor % 2 = 0 then x.floor else x.floor + 1

/-- Models `np.round(x, 2)`: the result as an exact two-decimal value. -/
def npRound2 (x : ℚ) : ℚ := (rint (100 * x) : ℚ) / 100

/-- Fuel-driven base-two logarithm: `log2fuel f n` is `⌊log₂ n⌋` for
positive `n` whenever `n ≤ f`.  Written with structural recursion on the
fuel so that it evaluates inside the kernel. -/
def log2fuel : ℕ → ℕ → ℕ
  | 0, _ => 0
  | f + 1, n => if n ≤ 1 then 0 else log2fuel f (n / 2) + 1

/-- `⌊log₂ n⌋` for positive `n` (and 0 at 0). -/
def nlog2 (n : ℕ) : ℕ := log2fuel n n

/-- The binary exponent `⌊log₂ (a / d)⌋` of a positive fraction `a / d`:
first the estimate `⌊log₂ a⌋ - ⌊log₂ d⌋`, which is off by at most one,
then an exact comparison decides the adjustment. -/
def exps (a d : ℕ) : ℤ :=
  let e1 : ℤ := (nlog2 a : ℤ) - (nlog2 d : ℤ)
  let below : Bool :=
    if 0 ≤ e1 then decide (a < 2 ^ e1.toNat * d) else decide (a * 2 ^ (-e1).toNat < d)
  if below then e1 - 1 else e1

/-- The binary exponent `⌊log₂ |q|⌋` of a nonzero rational. -/
def fl64exp (q : ℚ) : ℤ := exps q.num.natAbs q.den

/-- Binary64 rounding: the nearest IEEE-754 double (53-bit significand,
round to nearest, ties to even; exponent range unbounded — overflow and
subnormals are out of reach at this script's magnitudes).  This is the
rounding float64 arithmetic applies to every operation result: a float64
product computes `fl64` of the exact product of its operands. -/
def fl64 (q : ℚ) : ℚ :=
  if q = 0 then 0
  else
    (if q < 0 then (-1 : ℚ) else 1) *
      ((rint (|q| * ((2 ^ (52 - fl64exp q).toNat : ℕ) : ℚ) /
          ((2 ^ (fl64exp q - 52).toNat : ℕ) : ℚ)) : ℚ) *
        ((2 ^ (fl64exp q - 52).toNat : ℕ) : ℚ) / ((2 ^ (52 - fl64exp q).toNat : ℕ) : ℚ))

/-- `np.round(x, 2)` applied to a float64 value, as NumPy computes it:
multiply by 100 (float64 product), `rint` (ties to even), divide by 100
(float64 quotient). -/
def npRound2F (x : ℚ) : ℚ := fl64 ((rint (fl64 (100 * x)) : ℚ) / 100)

/-- The `product_category` choice set of the script. -/
def categories : List String := ["Electronics", "Fashion", "Home", "Sports", "Books"]

/-- The `payment_method` choice set of the script. -/
def paymentMethods : List String := ["Credit Card", "PayPal", "Bank Transfer", "Cash"]

/-- The `country` choice set of the script. -/
def countries : List String := ["Germany", "Austria", "Switzerland", "Netherlands", "Belgium"]

/-- `start_date = datetime(2022, 1, 1)` as a day count since 1970-01-01. -/
def startDateDays : ℕ := 18993

/-- The script draws day offsets with `np.random.randint(0, 730)`. -/
def dateRangeLen : ℕ := 730

/-- `np.random.seed(42)`. -/
def seedValue : ℕ := 42

/-- `n = 5_000_000`. -/
def rowCount : ℕ := 5000000

/-- One row of the generated dataset, with the columns of the script's
`data` dict in construction order plus the derived `total` column. -/
structure TransactionRecord where
  transaction_id : ℕ
  customer_id : ℕ
  product_category : String
  product_price : ℚ
  quantity : ℕ
  date : ℕ
  payment_method : String
  country : String
  total : ℚ
deriving DecidableEq

/-- Row `i` (0-based) of a run with `n` rows drawing from stream `s`.
Field by field this mirrors the script: `transaction_id` from
`range(1, n + 1)`, `customer_id` from `randint(1000, 50000)`,
`product_category` from `choice([...])`, `product_price` from
`round(uniform(5, 500), 2)`, `quantity` from `randint(1, 10)`, `date`
from `start_date + timedelta(days=randint(0, 730))`, `payment_method`
and `country` from their `choice` sets, and
`total = product_price * quantity` (line 32): a float64 product with no
decimal rounding, so `total = fl64 (fl64 price * qty)` — the stored
price double is `fl64 price` (the record keeps the exact cent value,
which determines that double uniquely), and multiplying it by the
integer quantity rounds the result to float64 again.  The stream
offsets mirror the script's draw-consumption
order: the `dates` list first consumes `n` draws, then each column of
the dict consumes its own block of `n` draws. -/
def mkRecord (s : RandStream) (n i : ℕ) : TransactionRecord :=
  let price := npRound2 (npUniform 5 500 (s (3 * n + i)))
  let qty := randint 1 10 (s (4 * n + i))
  { transaction_id := i + 1
    customer_id := randint 1000 50000 (s (n + i))
    product_category := npChoice categories (s (2 * n + i))
    product_price := price
    quantity := qty
    date := startDateDays + randint 0 dateRangeLen (s i)
    payment_method := npChoice paymentMethods (s (5 * n + i))
    country := npChoice countries (s (6 * n + i))
    total := fl64 (fl64 price * qty) }

/-- The full dataset of a run: the data frame `df` with its appended
`total` column, one record per row index. -/
def generate (s : RandStream) (n : ℕ) : List TransactionRecord :=
  (List.range n).map (mkRecord s n)

/-- Zero-pad a number below 100 to two digits. -/
def pad2 (k : ℕ) : String := if k < 10 then "0" ++ toString k else toString k

/-- Convert a day count since 1970-01-01 to a Gregorian
`(year, month, day)` triple (the standard civil-from-days algorithm,
restricted to nonnegative day counts, which covers this script's date
window). -/
def civilFromDays (z : ℕ) : ℕ × ℕ × ℕ :=
  let d := z + 719468
  let era := d / 146097
  let doe := d % 146097
  let yoe := (doe - doe / 1460 + doe / 36524 - doe / 146096) / 365
  let y := yoe + era * 400
  let doy := doe - (365 * yoe + yoe / 4 - yoe / 100)
  let mp := (5 * doy + 2) / 153
  let dd := doy - (153 * mp + 2) / 5 + 1
  let m := if mp < 10 then mp + 3 else mp - 9
  (if m ≤ 2 then y + 1 else y, m, dd)

/-- Serialize a date (day count since 1970-01-01) the way
`DataFrame.to_csv` serializes a datetime64 column whose entries are all
at midnight: `YYYY-MM-DD`. -/
def dateStr (z : ℕ) : String :=
  let c := civilFromDays z
  toString c.1 ++ "-" ++ pad2 c.2.1 ++ "-" ++ pad2 c.2.2

/-- Serialize a nonnegative exact two-decimal rational the way
`DataFrame.to_csv` serializes the corresponding float64 (the shortest
round-tripping decimal): trailing fractional zeros are dropped, but at
least one fractional digit is kept. -/
def moneyStr (q : ℚ) : String :=
  let c := ((100 * q).floor).toNat
  let whole := c / 100
  let frac := c % 100
  if frac = 0 then toString whole ++ ".0"
  else if frac % 10 = 0 then toString whole ++ "." ++ toString (frac / 10)
  else toString whole ++ "." ++ pad2 frac

/-- The nine serialized fields of one CSV data row, in the column order of
the script's `data` dict followed by the appended `total` column. -/
def serializeRecord (r : TransactionRecord) : List String :=
  [toString r.transaction_id, toString r.customer_id, r.product_category,
   moneyStr r.product_price, toString r.quantity, dateStr r.date,
   r.payment_method, r.country, moneyStr r.total]

/-- The header row `df.to_csv` writes (the nine column names of `df` in
order, `index=False`). -/
def headerLine : String :=
  "transaction_id,customer_id,product_category,product_price,quantity,date,payment_method,country,total"

/-- All lines of the CSV file the run writes: one header line followed by
one line per record. -/
def csvLines (s : RandStream) (n : ℕ) : List String :=
  headerLine :: (generate s n).map (fun r => String.intercalate "," (serializeRecord r))

/-- The byte content of the written file: the lines joined by newlines,
with a trailing newline. -/
def outputBytes (s : RandStream) (n : ℕ) : String :=
  String.intercalate "\n" (csvLines s n) ++ "\n"

/-- Stand-in for the NumPy MT19937 draw stream that exists after
`np.random.seed(seed)`: a fixed deterministic function of the seed alone.
No theorem below depends on its particular values, only on the fact that
after seeding the stream is a function of the seed and of nothing else. -/
def seededStream (seed : ℕ) : RandStream :=
  fun i => (seed * 6364136223846793005 + i * 1442695040888963407) % 2 ^ 53

/-- A complete script run.  `ambient` is whatever PRNG state the process
had before the run started; the script's first action
`np.random.seed(seed)` replaces it, so the ambient state cannot influence
any draw.  The result is `some` of the content of the file the run writes:
the script performs no configuration validation and `df.to_csv` is called
unconditionally, so a run always writes exactly one file (a `none` result,
meaning no file written, is never produced). -/
def runScript (_ambient : RandStream) (n seed : ℕ) : Option String :=
  some (outputBytes (seededStream seed) n)

/-! ### Supporting lemmas -/

/-- `Rat.floor` agrees with the `FloorRing` floor on ℚ. -/
theorem ratFloor_eq_floor (q : ℚ) : q.floor = ⌊q⌋ :=
  (Rat.floor_def' q).trans Rat.floor_def.symm

/-- Rounding an integer returns it unchanged. -/
theorem rint_intCast (k : ℤ) : rint (k : ℚ) = k := by
  unfold rint
  rw [ratFloor_eq_floor, Int.floor_intCast]
  norm_num

/-- `rint` returns either the floor or the floor plus one. -/
theorem rint_bounds (x : ℚ) : ⌊x⌋ ≤ rint x ∧ rint x ≤ ⌊x⌋ + 1 := by
  unfold rint
  rw [ratFloor_eq_floor]
  split_ifs <;> omega

/-- Rounding to the nearest integer moves a value by at most one half. -/
theorem rint_close (x : ℚ) : |(rint x : ℚ) - x| ≤ 1 / 2 := by
  have h0 : (⌊x⌋ : ℚ) ≤ x := Int.floor_le x
  have h1 : x < ⌊x⌋ + 1 := Int.lt_floor_add_one x
  unfold rint
  rw [ratFloor_eq_floor]
  split_ifs with hc1 hc2 hc3
  · rw [abs_sub_comm, abs_of_nonneg (by linarith)]
    linarith
  · push_cast
    rw [abs_of_nonneg (by linarith)]
    linarith
  · have he : x - ⌊x⌋ = 1 / 2 := le_antisymm (not_lt.mp hc2) (not_lt.mp hc1)
    rw [abs_sub_comm, abs_of_nonneg (by linarith)]
    linarith
  · have he : x - ⌊x⌋ = 1 / 2 := le_antisymm (not_lt.mp hc2) (not_lt.mp hc1)
    push_cast
    rw [abs_of_nonneg (by linarith)]
    linarith

/-- `rint` of a nonnegative value is nonnegative. -/
theorem rint_nonneg (x : ℚ) (hx : 0 ≤ x) : 0 ≤ rint x := by
  have h := (rint_bounds x).1
  have h0 : (0 : ℤ) ≤ ⌊x⌋ := Int.floor_nonneg.mpr hx
  omega

/-- The fuel-driven logarithm is exact whenever the fuel dominates the
argument. -/
theorem log2fuel_spec : ∀ f n, 0 < n → n ≤ f →
    2 ^ log2fuel f n ≤ n ∧ n < 2 ^ (log2fuel f n + 1) := by
  intro f
  induction f with
  | zero => intro n h1 h2; omega
  | succ f ih =>
    intro n h1 h2
    by_cases hn : n ≤ 1
    · have hone : n = 1 := by omega
      subst hone
      have heq : log2fuel (f + 1) 1 = 0 := by simp [log2fuel]
      rw [heq]
      omega
    · obtain ⟨ihl, ihr⟩ := ih (n / 2) (by omega) (by omega)
      have heq : log2fuel (f + 1) n = log2fuel f (n / 2) + 1 := by
        simp [log2fuel, hn]
      rw [heq]
      have hp1 : 2 ^ (log2fuel f (n / 2) + 1) = 2 ^ log2fuel f (n / 2) * 2 :=
        pow_succ 2 _
      have hp2 : 2 ^ (log2fuel f (n / 2) + 1 + 1) = 2 ^ (log2fuel f (n / 2) + 1) * 2 :=
        pow_succ 2 _
      omega

/-- Lower logarithm bound: `2 ^ ⌊log₂ n⌋ ≤ n`. -/
theorem nlog2_le {n : ℕ} (h : 0 < n) : 2 ^ nlog2 n ≤ n :=
  (log2fuel_spec n n h le_rfl).1

/-- Upper logarithm bound: `n < 2 ^ (⌊log₂ n⌋ + 1)`. -/
theorem nlog2_gt {n : ℕ} (h : 0 < n) : n < 2 ^ (nlog2 n + 1) :=
  (log2fuel_spec n n h le_rfl).2

/-- The adjusted exponent `⌊log₂ a⌋ - ⌊log₂ d⌋ - 1` is always a valid
lower bound for the fraction `a / d`, from the crude logarithm bounds
alone. -/
theorem exps_adjusted_le (a d : ℕ) (B1 : 2 ^ nlog2 a ≤ a) (B4 : d < 2 ^ (nlog2 d + 1)) :
    2 ^ 52 * 2 ^ ((nlog2 a : ℤ) - (nlog2 d : ℤ) - 1 - 52).toNat * d ≤
      a * 2 ^ (52 - ((nlog2 a : ℤ) - (nlog2 d : ℤ) - 1)).toNat := by
  have hKey : 52 + ((nlog2 a : ℤ) - (nlog2 d : ℤ) - 1 - 52).toNat + (nlog2 d + 1) =
      nlog2 a + (52 - ((nlog2 a : ℤ) - (nlog2 d : ℤ) - 1)).toNat := by omega
  calc 2 ^ 52 * 2 ^ ((nlog2 a : ℤ) - (nlog2 d : ℤ) - 1 - 52).toNat * d
      ≤ 2 ^ 52 * 2 ^ ((nlog2 a : ℤ) - (nlog2 d : ℤ) - 1 - 52).toNat * 2 ^ (nlog2 d + 1) :=
        Nat.mul_le_mul_left _ (Nat.le_of_lt B4)
    _ = 2 ^ (52 + ((nlog2 a : ℤ) - (nlog2 d : ℤ) - 1 - 52).toNat + (nlog2 d + 1)) := by
        rw [← pow_add, ← pow_add]
    _ = 2 ^ (nlog2 a + (52 - ((nlog2 a : ℤ) - (nlog2 d : ℤ) - 1)).toNat) := by rw [hKey]
    _ = 2 ^ nlog2 a * 2 ^ (52 - ((nlog2 a : ℤ) - (nlog2 d : ℤ) - 1)).toNat := by
        rw [pow_add]
    _ ≤ a * 2 ^ (52 - ((nlog2 a : ℤ) - (nlog2 d : ℤ) - 1)).toNat :=
        Nat.mul_le_mul_right _ B1

/-- The selected binary exponent is a lower bound: for a positive fraction
`a / d`, scaling by `2 ^ 52` against the two exponent offsets stays below
the fraction.  (This is `2 ^ exps a d ≤ a / d`, written multiplicatively
without integer exponents.) -/
theorem exps_scaled_le (a d : ℕ) (ha : 0 < a) (hd : 0 < d) :
    2 ^ 52 * 2 ^ (exps a d - 52).toNat * d ≤ a * 2 ^ (52 - exps a d).toNat := by
  have B1 : 2 ^ nlog2 a ≤ a := nlog2_le ha
  have B4 : d < 2 ^ (nlog2 d + 1) := nlog2_gt hd
  simp only [exps]
  split_ifs with he hc hc
  · exact exps_adjusted_le a d B1 B4
  · simp only [decide_eq_true_eq] at hc
    have hA : 2 ^ ((nlog2 a : ℤ) - (nlog2 d : ℤ)).toNat * d ≤ a := not_lt.mp hc
    have h1 : 52 + ((nlog2 a : ℤ) - (nlog2 d : ℤ) - 52).toNat =
        ((nlog2 a : ℤ) - (nlog2 d : ℤ)).toNat +
          (52 - ((nlog2 a : ℤ) - (nlog2 d : ℤ))).toNat := by
      omega
    calc 2 ^ 52 * 2 ^ ((nlog2 a : ℤ) - (nlog2 d : ℤ) - 52).toNat * d
        = 2 ^ (52 + ((nlog2 a : ℤ) - (nlog2 d : ℤ) - 52).toNat) * d := by rw [← pow_add]
      _ = 2 ^ ((nlog2 a : ℤ) - (nlog2 d : ℤ)).toNat *
            2 ^ (52 - ((nlog2 a : ℤ) - (nlog2 d : ℤ))).toNat * d := by rw [h1, pow_add]
      _ = 2 ^ ((nlog2 a : ℤ) - (nlog2 d : ℤ)).toNat * d *
            2 ^ (52 - ((nlog2 a : ℤ) - (nlog2 d : ℤ))).toNat := by ring
      _ ≤ a * 2 ^ (52 - ((nlog2 a : ℤ) - (nlog2 d : ℤ))).toNat :=
          Nat.mul_le_mul_right _ hA
  · exact exps_adjusted_le a d B1 B4
  · simp only [decide_eq_true_eq] at hc
    have hA : d ≤ a * 2 ^ (-((nlog2 a : ℤ) - (nlog2 d : ℤ))).toNat := not_lt.mp hc
    have h1 : ((nlog2 a : ℤ) - (nlog2 d : ℤ) - 52).toNat = 0 := by omega
    have h2 : (52 - ((nlog2 a : ℤ) - (nlog2 d : ℤ))).toNat =
        52 + (-((nlog2 a : ℤ) - (nlog2 d : ℤ))).toNat := by omega
    calc 2 ^ 52 * 2 ^ ((nlog2 a : ℤ) - (nlog2 d : ℤ) - 52).toNat * d
        = 2 ^ 52 * d := by rw [h1, pow_zero, mul_one]
      _ ≤ 2 ^ 52 * (a * 2 ^ (-((nlog2 a : ℤ) - (nlog2 d : ℤ))).toNat) :=
          Nat.mul_le_mul_left _ hA
      _ = a * 2 ^ (52 - ((nlog2 a : ℤ) - (nlog2 d : ℤ))).toNat := by
          rw [h2, pow_add]; ring

/-- `fl64` preserves nonnegativity. -/
theorem fl64_nonneg (x : ℚ) (hx : 0 ≤ x) : 0 ≤ fl64 x := by
  unfold fl64
  split_ifs with h0 hneg
  · exact le_refl 0
  · exact absurd hneg (not_lt.mpr hx)
  · rw [one_mul]
    apply div_nonneg
    · apply mul_nonneg
      · have hr : 0 ≤ rint (|x| * ((2 ^ (52 - fl64exp x).toNat : ℕ) : ℚ) /
            ((2 ^ (fl64exp x - 52).toNat : ℕ) : ℚ)) := by
          apply rint_nonneg
          positivity
        exact_mod_cast hr
      · positivity
    · positivity

/-- Correct rounding of binary64: for nonnegative values, `fl64` commits a
relative error of at most `2 ^ (-53)`. -/
theorem fl64_rel_error (x : ℚ) (hx : 0 ≤ x) : (2 ^ 53 : ℚ) * |fl64 x - x| ≤ x := by
  rcases eq_or_lt_of_le hx with h0 | hpos
  · rw [← h0]
    simp [fl64]
  · have hxne : x ≠ 0 := ne_of_gt hpos
    unfold fl64
    rw [if_neg hxne, if_neg (not_lt.mpr hx), one_mul, abs_of_nonneg hx]
    set P := (fl64exp x - 52).toNat with hP
    set N := (52 - fl64exp x).toNat with hN
    set m := x * ((2 ^ N : ℕ) : ℚ) / ((2 ^ P : ℕ) : ℚ) with hm
    have hPpos : (0 : ℚ) < ((2 ^ P : ℕ) : ℚ) := by positivity
    have hNpos : (0 : ℚ) < ((2 ^ N : ℕ) : ℚ) := by positivity
    have hxm : x = m * ((2 ^ P : ℕ) : ℚ) / ((2 ^ N : ℕ) : ℚ) := by
      rw [hm]
      field_simp
    have hclose := rint_close m
    have habs : |(rint m : ℚ) * ((2 ^ P : ℕ) : ℚ) / ((2 ^ N : ℕ) : ℚ) - x| =
        |(rint m : ℚ) - m| * ((2 ^ P : ℕ) : ℚ) / ((2 ^ N : ℕ) : ℚ) := by
      nth_rewrite 1 [hxm]
      rw [div_sub_div_same, ← sub_mul, abs_div, abs_mul]
      rw [abs_of_pos hPpos, abs_of_pos hNpos]
    rw [habs]
    have hkey := exps_scaled_le x.num.natAbs x.den
      (Int.natAbs_pos.mpr (Rat.num_ne_zero.mpr hxne)) x.pos
    have hx_frac : ((2 ^ 52 : ℕ) : ℚ) * ((2 ^ P : ℕ) : ℚ) / ((2 ^ N : ℕ) : ℚ) ≤ x := by
      rw [div_le_iff₀ hNpos]
      have hxq : x = (x.num : ℚ) / (x.den : ℚ) := (Rat.num_div_den x).symm
      rw [hxq, div_mul_eq_mul_div, le_div_iff₀ (by exact_mod_cast x.pos)]
      have hnum : (x.num : ℚ) = ((x.num.natAbs : ℕ) : ℚ) := by
        rw [Int.cast_natAbs]
        rw [abs_of_nonneg (by exact_mod_cast le_of_lt (Rat.num_pos.mpr hpos))]
      rw [hnum]
      exact_mod_cast hkey
    calc (2 ^ 53 : ℚ) * (|(rint m : ℚ) - m| * ((2 ^ P : ℕ) : ℚ) / ((2 ^ N : ℕ) : ℚ))
        ≤ (2 ^ 53 : ℚ) * (1 / 2 * ((2 ^ P : ℕ) : ℚ) / ((2 ^ N : ℕ) : ℚ)) := by
          gcongr
      _ = ((2 ^ 52 : ℕ) : ℚ) * ((2 ^ P : ℕ) : ℚ) / ((2 ^ N : ℕ) : ℚ) := by
          push_cast
          ring
      _ ≤ x := hx_frac

/-- Every exact multiple of one hundredth is a fixed point of `npRound2`. -/
theorem npRound2_intCast_div (z : ℤ) : npRound2 ((z : ℚ) / 100) = (z : ℚ) / 100 := by
  have h : (100 : ℚ) * ((z : ℚ) / 100) = (z : ℚ) := by
    field_simp
  unfold npRound2
  rw [h, rint_intCast]

/-- A multiple of one hundredth times a natural number is a fixed point of
`npRound2`. -/
theorem npRound2_cents_mul_nat (z : ℤ) (q : ℕ) :
    npRound2 ((z : ℚ) / 100 * (q : ℚ)) = (z : ℚ) / 100 * (q : ℚ) := by
  have h : (z : ℚ) / 100 * (q : ℚ) = ((z * (q : ℤ) : ℤ) : ℚ) / 100 := by
    push_cast
    ring
  rw [h, npRound2_intCast_div]

/-- Every member of the generated dataset is `mkRecord` at some row index
below the row count. -/
theorem mem_generate {s : RandStream} {n : ℕ} {r : TransactionRecord}
    (h : r ∈ generate s n) : ∃ i, i < n ∧ r = mkRecord s n i := by
  simp only [generate, List.mem_map, List.mem_range] at h
  obtain ⟨i, hi, rfl⟩ := h
  exact ⟨i, hi, rfl⟩

/-- Conversely, each row index below the row count yields a member of the
generated dataset. -/
theorem mem_generate_of_lt (s : RandStream) (n i : ℕ) (h : i < n) :
    mkRecord s n i ∈ generate s n :=
  List.mem_map.mpr ⟨i, List.mem_range.mpr h, rfl⟩

/-- The `total` field of a row, unfolded. -/
theorem mkRecord_total (s : RandStream) (n i : ℕ) :
    (mkRecord s n i).total =
      fl64 (fl64 (npRound2 (npUniform 5 500 (s (3 * n + i)))) *
        ((randint 1 10 (s (4 * n + i)) : ℕ) : ℚ)) :=
  rfl

/-- The `product_price` field of a row, unfolded. -/
theorem mkRecord_price (s : RandStream) (n i : ℕ) :
    (mkRecord s n i).product_price = npRound2 (npUniform 5 500 (s (3 * n + i))) :=
  rfl

/-- The `quantity` field of a row, unfolded. -/
theorem mkRecord_qty (s : RandStream) (n i : ℕ) :
    (mkRecord s n i).quantity = randint 1 10 (s (4 * n + i)) :=
  rfl

/-- The `date` field of a row, unfolded. -/
theorem mkRecord_date (s : RandStream) (n i : ℕ) :
    (mkRecord s n i).date = startDateDays + randint 0 dateRangeLen (s i) :=
  rfl

/-- The `customer_id` field of a row, unfolded. -/
theorem mkRecord_customer (s : RandStream) (n i : ℕ) :
    (mkRecord s n i).customer_id = randint 1000 50000 (s (n + i)) :=
  rfl

/-- The `product_category` field of a row, unfolded. -/
theorem mkRecord_category (s : RandStream) (n i : ℕ) :
    (mkRecord s n i).product_category = npChoice categories (s (2 * n + i)) :=
  rfl

/-- The `payment_method` field of a row, unfolded. -/
theorem mkRecord_payment (s : RandStream) (n i : ℕ) :
    (mkRecord s n i).payment_method = npChoice paymentMethods (s (5 * n + i)) :=
  rfl

/-- The `country` field of a row, unfolded. -/
theorem mkRecord_country (s : RandStream) (n i : ℕ) :
    (mkRecord s n i).country = npChoice countries (s (6 * n + i)) :=
  rfl

/-- `randint lo hi` lands in `[lo, hi)` whenever the range is nonempty. -/
theorem randint_bounds (lo hi r : ℕ) (h : lo < hi) :
    lo ≤ randint lo hi r ∧ randint lo hi r < hi := by
  unfold randint
  have hm := Nat.mod_lt r (show 0 < hi - lo by omega)
  omega

/-- `npChoice` returns a member of a nonempty choice set. -/
theorem npChoice_mem (xs : List String) (r : ℕ) (h : xs ≠ []) : npChoice xs r ∈ xs := by
  unfold npChoice
  have hlen : 0 < xs.length := List.length_pos.mpr h
  have hmod : r % xs.length < xs.length := Nat.mod_lt _ hlen
  rw [List.getD_eq_getElem xs "" hmod]
  exact List.getElem_mem hmod

/-- `npUniform lo hi` lands in `[lo, hi)` whenever `lo < hi`. -/
theorem npUniform_bounds (lo hi : ℚ) (r : ℕ) (h : lo < hi) :
    lo ≤ npUniform lo hi r ∧ npUniform lo hi r < hi := by
  unfold npUniform
  have hk : ((r % 2 ^ 53 : ℕ) : ℚ) < 2 ^ 53 := by
    exact_mod_cast Nat.mod_lt r (show 0 < 2 ^ 53 by norm_num)
  have hk0 : (0 : ℚ) ≤ ((r % 2 ^ 53 : ℕ) : ℚ) := by positivity
  constructor
  · have hnn : 0 ≤ (hi - lo) * ((r % 2 ^ 53 : ℕ) : ℚ) / 2 ^ 53 := by
      have : 0 ≤ hi - lo := by linarith
      positivity
    linarith
  · have h2 : (hi - lo) * ((r % 2 ^ 53 : ℕ) : ℚ) / 2 ^ 53 < hi - lo := by
      rw [div_lt_iff₀ (show (0 : ℚ) < 2 ^ 53 by norm_num)]
      have := mul_lt_mul_of_pos_left hk (show (0 : ℚ) < hi - lo by linarith)
      linarith
    linarith

/-- Rounding to two decimals maps `[5, 500)` into `[5, 500]`: the closed
upper bound is genuinely attained because values just below 500 round up. -/
theorem npRound2_bounds (x : ℚ) (h5 : (5 : ℚ) ≤ x) (h500 : x < 500) :
    (5 : ℚ) ≤ npRound2 x ∧ npRound2 x ≤ 500 := by
  obtain ⟨hl, hr⟩ := rint_bounds (100 * x)
  have hfl : (500 : ℤ) ≤ ⌊100 * x⌋ := by
    apply Int.le_floor.mpr
    push_cast
    linarith
  have hfu : ⌊100 * x⌋ < 50000 := by
    apply Int.floor_lt.mpr
    push_cast
    linarith
  unfold npRound2
  constructor
  · rw [le_div_iff₀ (show (0 : ℚ) < 100 by norm_num)]
    have hc : (500 : ℤ) ≤ rint (100 * x) := by omega
    have : (500 : ℚ) ≤ (rint (100 * x) : ℚ) := by exact_mod_cast hc
    linarith
  · rw [div_le_iff₀ (show (0 : ℚ) < 100 by norm_num)]
    have hc : rint (100 * x) ≤ 50000 := by omega
    have : (rint (100 * x) : ℚ) ≤ 50000 := by exact_mod_cast hc
    linarith

/-- Checks the shape `YYYY-MM-DD`: ten characters, digits everywhere except
dashes at positions 4 and 7. -/
def isDateFmt (s : String) : Bool :=
  match s.data with
  | [y1, y2, y3, y4, c1, m1, m2, c2, d1, d2] =>
    y1.isDigit && y2.isDigit && y3.isDigit && y4.isDigit &&
    (c1 == '-') && m1.isDigit && m2.isDigit && (c2 == '-') && d1.isDigit && d2.isDigit
  | _ => false

/-- Checks that a serialized number ends in a decimal point followed by
exactly two digits. -/
def hasTwoFracDigits (s : String) : Bool :=
  match s.data.dropWhile (fun c => c != '.') with
  | ['.', a, b] => a.isDigit && b.isDigit
  | _ => false

/-- Every date reachable from the script's day-offset range serializes in
`YYYY-MM-DD` shape. -/
theorem date_fmt_all : ∀ o, o < 730 → isDateFmt (dateStr (startDateDays + o)) = true := by
  decide

/-! ### Claim theorems -/

/-- A draw stream whose price draw (raw value 4569288494662647 at stream
position 3, the `n = 1` price slot) makes the rounded price exactly 256.11
and whose quantity draw (raw value 8 at position 4) gives quantity 9. -/
def c1Stream : RandStream :=
  fun i => if i = 3 then 4569288494662647 else if i = 4 then 8 else 0

/-- C1 counterexample: at the reachable record with price 256.11 and
quantity 9, the float64 product of line 32 is one ulp above the float64
value of `round(256.11 * 9, 2) = 2304.99` (the stored price double lies
above 256.11, and multiplying it by 9 rounds upward), so `total` does not
equal `round(product_price * quantity, 2)` exactly. -/
theorem total_ne_round_product :
    (mkRecord c1Stream 1 0).product_price.num = 25611 ∧
    (mkRecord c1Stream 1 0).product_price.den = 100 ∧
    (mkRecord c1Stream 1 0).quantity = 9 ∧
    (mkRecord c1Stream 1 0).total ≠
      npRound2F (fl64 (fl64 (mkRecord c1Stream 1 0).product_price *
        ((mkRecord c1Stream 1 0).quantity : ℚ))) ∧
    ¬ (∀ r ∈ generate c1Stream 1, r.total =
        npRound2F (fl64 (fl64 r.product_price * (r.quantity : ℚ)))) := by
  have hne : (mkRecord c1Stream 1 0).total ≠
      npRound2F (fl64 (fl64 (mkRecord c1Stream 1 0).product_price *
        ((mkRecord c1Stream 1 0).quantity : ℚ))) := by
    with_unfolding_all decide
  refine ⟨by with_unfolding_all decide, by with_unfolding_all decide, by decide, hne, ?_⟩
  intro hall
  exact hne (hall (mkRecord c1Stream 1 0) (mem_generate_of_lt c1Stream 1 0 (by decide)))

/-- C1 amended: for every generated record, `total` is the float64 product
of the stored price double and the quantity (line 32 applies no decimal
rounding); it equals the exact product to within the float64 relative
error `2 ^ (-53)`; and in exact arithmetic — the price being an exact
multiple of one hundredth and the quantity an integer — that product is
its own two-decimal rounding, so any deviation from
`round(product_price * quantity, 2)` is purely float64 rounding, of at
most one ulp. -/
theorem total_float_product (s : RandStream) (n : ℕ) (r : TransactionRecord)
    (h : r ∈ generate s n) :
    r.total = fl64 (fl64 r.product_price * (r.quantity : ℚ)) ∧
    (2 ^ 53 : ℚ) * |r.total - fl64 r.product_price * (r.quantity : ℚ)| ≤
      fl64 r.product_price * (r.quantity : ℚ) ∧
    npRound2 (r.product_price * (r.quantity : ℚ)) = r.product_price * (r.quantity : ℚ) := by
  obtain ⟨i, _, rfl⟩ := mem_generate h
  rw [mkRecord_total, mkRecord_price, mkRecord_qty]
  have hu := npUniform_bounds 5 500 (s (3 * n + i)) (by norm_num)
  have hp := npRound2_bounds _ hu.1 hu.2
  have hp0 : 0 ≤ npRound2 (npUniform 5 500 (s (3 * n + i))) :=
    le_trans (by norm_num) hp.1
  refine ⟨rfl, ?_, ?_⟩
  · exact fl64_rel_error _ (mul_nonneg (fl64_nonneg _ hp0) (Nat.cast_nonneg _))
  · have hpr : npRound2 (npUniform 5 500 (s (3 * n + i))) =
        ((rint (100 * npUniform 5 500 (s (3 * n + i))) : ℤ) : ℚ) / 100 := rfl
    rw [hpr, npRound2_cents_mul_nat]

/-- Witness for C1 (amended): the conclusion at a concrete run of one row
drawing the all-zero stream. -/
theorem total_float_product_witness :
    (mkRecord (fun _ => 0) 1 0) ∈ generate (fun _ => 0) 1 ∧
    (mkRecord (fun _ => 0) 1 0).total =
      fl64 (fl64 (mkRecord (fun _ => 0) 1 0).product_price *
        ((mkRecord (fun _ => 0) 1 0).quantity : ℚ)) :=
  ⟨mem_generate_of_lt (fun _ => 0) 1 0 (by decide),
   (total_float_product (fun _ => 0) 1 (mkRecord (fun _ => 0) 1 0)
     (mem_generate_of_lt (fun _ => 0) 1 0 (by decide))).1⟩

/-- C2: a run's output bytes depend only on the configuration
`(row_count, seed)` (the date window is a hardcoded constant): the ambient
PRNG state the process had before the run cannot influence the result,
because `np.random.seed` replaces it; hence two runs with identical
configuration produce byte-for-byte identical output files. -/
theorem identical_config_identical_bytes (a b : RandStream) (n seed : ℕ) :
    runScript a n seed = runScript b n seed :=
  rfl

/-- C3 counterexample: run with `row_count = 0`.  The run does not fail
(there is no validation and no `InvalidConfiguration` anywhere in the
script); it writes a file consisting of exactly the header line. -/
theorem run_zero_rows_writes_header_file :
    runScript (fun _ => 0) 0 seedValue ≠ none ∧
    runScript (fun _ => 0) 0 seedValue = some (headerLine ++ "\n") := by
  constructor
  · intro hc
    exact Option.noConfusion hc
  · with_unfolding_all decide

/-- C3 amended: the script performs no configuration validation at all: a
run with `row_count = 0` still succeeds, writing a header-only file.  The
hardcoded configuration satisfies the validity conditions anyway (positive
row count, nonempty categorical sets, correctly ordered numeric ranges),
so the `InvalidConfiguration` situations never arise in the actual run. -/
theorem no_validation_run_always_writes (ambient : RandStream) :
    runScript ambient 0 seedValue = some (headerLine ++ "\n") ∧
    0 < rowCount ∧
    categories ≠ [] ∧ paymentMethods ≠ [] ∧ countries ≠ [] ∧
    (1000 : ℕ) < 50000 ∧ ((5 : ℚ) < 500) ∧ (1 : ℕ) < 10 ∧ 0 < dateRangeLen := by
  refine ⟨?_, by decide, by decide, by decide, by decide, by decide, by norm_num, by decide, by decide⟩
  with_unfolding_all rfl

/-- C4: for every run with `row_count = n`, the `transaction_id` column is
exactly the contiguous range `[1, n]` in increasing order, with no gaps
and no duplicates. -/
theorem transaction_ids_contiguous (s : RandStream) (n : ℕ) :
    (generate s n).map TransactionRecord.transaction_id = List.range' 1 n ∧
    ((generate s n).map TransactionRecord.transaction_id).Nodup ∧
    List.Pairwise (fun a b => a < b) ((generate s n).map TransactionRecord.transaction_id) ∧
    (∀ k : ℕ, k ∈ (generate s n).map TransactionRecord.transaction_id ↔ 1 ≤ k ∧ k ≤ n) := by
  have hmap : (generate s n).map TransactionRecord.transaction_id = List.range' 1 n := by
    simp only [generate, List.map_map]
    rw [List.range'_eq_map_range]
    refine List.map_congr_left ?_
    intro i _
    show i + 1 = 1 + i
    omega
  refine ⟨hmap, ?_, ?_, ?_⟩
  · rw [hmap]
    exact List.nodup_range' 1 n
  · rw [hmap]
    exact List.pairwise_lt_range' 1 n
  · intro k
    rw [hmap, List.mem_range'_1]
    omega

/-- C5: for every generated record, the date lies within
`[start_date, start_date + 730 days]` inclusive (the script draws a day
offset with `randint(0, 730)`, so the offset is at most 729). -/
theorem date_within_window (s : RandStream) (n : ℕ) (r : TransactionRecord)
    (h : r ∈ generate s n) :
    startDateDays ≤ r.date ∧ r.date ≤ startDateDays + dateRangeLen := by
  obtain ⟨i, _, rfl⟩ := mem_generate h
  rw [mkRecord_date]
  unfold randint
  have hm : s i % (dateRangeLen - 0) < dateRangeLen - 0 := Nat.mod_lt _ (by decide)
  omega

/-- C6 amended: the output consists of one header line followed by exactly
`row_count` data lines; each data line carries the nine fields in the
exact order `transaction_id, customer_id, product_category, product_price,
quantity, date, payment_method, country, total`; every date field has the
`YYYY-MM-DD` shape.  (`product_price` and `total` are serialized in
shortest-decimal form, which can carry fewer than two decimal digits — see
the counterexample — so the exactly-two-digits clause is dropped.) -/
theorem csv_file_shape (s : RandStream) (n : ℕ) :
    (csvLines s n).length = n + 1 ∧
    csvLines s n = headerLine ::
      (List.range n).map (fun i => String.intercalate "," (serializeRecord (mkRecord s n i))) ∧
    headerLine = "transaction_id,customer_id,product_category,product_price,quantity,date,payment_method,country,total" ∧
    (∀ r : TransactionRecord, (serializeRecord r).length = 9) ∧
    (∀ r, r ∈ generate s n → isDateFmt (dateStr r.date) = true) := by
  refine ⟨?_, ?_, rfl, fun r => rfl, ?_⟩
  · simp [csvLines, generate]
  · show headerLine :: ((List.range n).map (mkRecord s n)).map
        (fun r => String.intercalate "," (serializeRecord r)) = _
    rw [List.map_map]
    rfl
  · intro r hr
    obtain ⟨i, _, rfl⟩ := mem_generate hr
    rw [mkRecord_date]
    apply date_fmt_all
    exact (randint_bounds 0 dateRangeLen (s i) (by decide)).2

/-- Witness for C6: the date-format conclusion at a concrete run of one
row drawing the all-zero stream. -/
theorem csv_file_shape_witness :
    (mkRecord (fun _ => 0) 1 0) ∈ generate (fun _ => 0) 1 ∧
    isDateFmt (dateStr (mkRecord (fun _ => 0) 1 0).date) = true :=
  ⟨mem_generate_of_lt (fun _ => 0) 1 0 (by decide),
   (csv_file_shape (fun _ => 0) 1).2.2.2.2 (mkRecord (fun _ => 0) 1 0)
     (mem_generate_of_lt (fun _ => 0) 1 0 (by decide))⟩

/-- A draw stream whose price draw makes `uniform(5, 500)` come out just
above 5.4995, so that the rounded price is exactly 5.50. -/
def priceHalfStream : RandStream := fun i => if i = 3 then 9007199254741 else 0

/-- C6 counterexample: a reachable product price of 5.50 serializes as
`"5.5"` (pandas serializes float64 in shortest-decimal form, which drops
the trailing zero), so the price field of that run's data line does not
carry exactly two decimal digits. -/
theorem price_serialized_without_two_decimals :
    moneyStr (mkRecord priceHalfStream 1 0).product_price = "5.5" ∧
    ¬ (∀ r ∈ generate priceHalfStream 1, hasTwoFracDigits (moneyStr r.product_price) = true) := by
  have hm : moneyStr (mkRecord priceHalfStream 1 0).product_price = "5.5" := by
    with_unfolding_all decide
  refine ⟨hm, ?_⟩
  intro hall
  have hinst := hall (mkRecord priceHalfStream 1 0)
    (mem_generate_of_lt priceHalfStream 1 0 (by decide))
  rw [hm] at hinst
  revert hinst
  decide

/-- A draw stream whose price draw is the largest 53-bit value, so that
`uniform(5, 500)` comes out just below 500 and rounds up to exactly 500. -/
def priceMaxStream : RandStream := fun i => if i = 3 then 2 ^ 53 - 1 else 0

/-- C7 counterexample: the rounded product price can equal 500.00 exactly
(a uniform draw just below 500 rounds up), so `product_price` does not
always lie in the half-open interval `[5.00, 500.00)`. -/
theorem price_can_reach_500 :
    (mkRecord priceMaxStream 1 0).product_price = 500 ∧
    ¬ (∀ r ∈ generate priceMaxStream 1, r.product_price < 500) := by
  have hp : (mkRecord priceMaxStream 1 0).product_price = 500 := by
    with_unfolding_all decide
  refine ⟨hp, ?_⟩
  intro hall
  have hinst := hall (mkRecord priceMaxStream 1 0)
    (mem_generate_of_lt priceMaxStream 1 0 (by decide))
  rw [hp] at hinst
  exact lt_irrefl _ hinst

/-- C7 amended: every generated record draws its categorical fields from
the declared closed sets, and its numeric base fields satisfy
`customer_id ∈ [1000, 50000)`, `product_price ∈ [5.00, 500.00]` (the upper
bound is closed: rounding can produce exactly 500.00), and
`quantity ∈ [1, 10)`. -/
theorem record_field_domains (s : RandStream) (n : ℕ) (r : TransactionRecord)
    (h : r ∈ generate s n) :
    r.product_category ∈ categories ∧
    r.payment_method ∈ paymentMethods ∧
    r.country ∈ countries ∧
    1000 ≤ r.customer_id ∧ r.customer_id < 50000 ∧
    (5 : ℚ) ≤ r.product_price ∧ r.product_price ≤ 500 ∧
    1 ≤ r.quantity ∧ r.quantity < 10 := by
  obtain ⟨i, _, rfl⟩ := mem_generate h
  rw [mkRecord_category, mkRecord_payment, mkRecord_country, mkRecord_customer,
    mkRecord_price, mkRecord_qty]
  have hcust := randint_bounds 1000 50000 (s (n + i)) (by decide)
  have hqty := randint_bounds 1 10 (s (4 * n + i)) (by decide)
  have huni := npUniform_bounds 5 500 (s (3 * n + i)) (by norm_num)
  have hprice := npRound2_bounds _ huni.1 huni.2
  exact ⟨npChoice_mem categories _ (by decide),
    npChoice_mem paymentMethods _ (by decide),
    npChoice_mem countries _ (by decide),
    hcust.1, hcust.2, hprice.1, hprice.2, hqty.1, hqty.2⟩

/-- Witness for C7 (amended): the conclusion at a concrete run of one row
drawing the all-zero stream. -/
theorem record_field_domains_witness :
    (mkRecord (fun _ => 0) 1 0) ∈ generate (fun _ => 0) 1 ∧
    (mkRecord (fun _ => 0) 1 0).product_category ∈ categories ∧
    (5 : ℚ) ≤ (mkRecord (fun _ => 0) 1 0).product_price :=
  ⟨mem_generate_of_lt (fun _ => 0) 1 0 (by decide),
   (record_field_domains (fun _ => 0) 1 (mkRecord (fun _ => 0) 1 0)
     (mem_generate_of_lt (fun _ => 0) 1 0 (by decide))).1,
   (record_field_domains (fun _ => 0) 1 (mkRecord (fun _ => 0) 1 0)
     (mem_generate_of_lt (fun _ => 0) 1 0 (by decide))).2.2.2.2.2.1⟩

/-- Witness for C5: the conclusion at a concrete run of one row drawing
the all-zero stream. -/
theorem date_within_window_witness :
    (mkRecord (fun _ => 0) 1 0) ∈ generate (fun _ => 0) 1 ∧
    startDateDays ≤ (mkRecord (fun _ => 0) 1 0).date ∧
    (mkRecord (fun _ => 0) 1 0).date ≤ startDateDays + dateRangeLen :=
  ⟨mem_generate_of_lt (fun _ => 0) 1 0 (by decide),
   date_within_window (fun _ => 0) 1 (mkRecord (fun _ => 0) 1 0)
     (mem_generate_of_lt (fun _ => 0) 1 0 (by decide))⟩

end BigData

namespace ArrakisNight

/-- The `COLOR_CYCLE` list of the theming module, in source order. -/
def COLOR_CYCLE : List String :=
  ["#7BA898", "#8EC4D4", "#4A7088", "#CCA361", "#8FBA70",
   "#4A7858", "#6BA8B0", "#D4A868", "#5A9A78", "#7AA0B0"]

/-- The `include_accent=False` branch of `get_palette`:
`[c for i, c in enumerate(COLOR_CYCLE) if i != 5]`, the cycle with the
element at index 5 removed. -/
def waterPalette : List String :=
  (COLOR_CYCLE.enum.filter (fun p => p.1 != 5)).map Prod.snd

/-- `get_palette(n, include_accent)`.  With `n = None` the whole palette
is returned; otherwise `n` colors are taken by cycling through the
palette by index modulo its length. -/
def get_palette (n : Option ℕ) (include_accent : Bool) : List String :=
  let palette := if include_accent then COLOR_CYCLE else waterPalette
  match n with
  | none => palette
  | some m => (List.range m).map (fun i => palette.getD (i % palette.length) "")

/-- `get_water_palette(n)`: convenience wrapper for
`get_palette(n, include_accent=False)`. -/
def get_water_palette (n : Option ℕ) : List String := get_palette n false

/-- Checks the shape of a hex color string: a hash sign followed by six
hexadecimal digits. -/
def isHexColor (s : String) : Bool :=
  match s.data with
  | ['#', a, b, c, d, e, f] =>
    [a, b, c, d, e, f].all
      (fun ch => ch.isDigit || ('A' ≤ ch && ch ≤ 'F') || ('a' ≤ ch && ch ≤ 'f'))
  | _ => false

/-- `get_palette` with a size request and the accent unfolds to cycling
through `COLOR_CYCLE` by index. -/
theorem get_palette_some_true (m : ℕ) :
    get_palette (some m) true = (List.range m).map
      (fun i => COLOR_CYCLE.getD (i % COLOR_CYCLE.length) "") :=
  rfl

/-- `get_palette` with a size request and no accent unfolds to cycling
through the water palette by index. -/
theorem get_palette_some_false (m : ℕ) :
    get_palette (some m) false = (List.range m).map
      (fun i => waterPalette.getD (i % waterPalette.length) "") :=
  rfl

/-- C9: for every `n`, `get_palette n` returns exactly `n` hex color
strings taken from the fixed base cycle in order, cycling by index modulo
the cycle length; in particular `get_palette 5` is the first five entries
of the cycle and in `get_palette 15` entries 11 through 15 repeat entries
1 through 5. -/
theorem get_palette_cycles (n : ℕ) :
    (get_palette (some n) true).length = n ∧
    (∀ i, i < n → (get_palette (some n) true).getD i "" = COLOR_CYCLE.getD (i % 10) "") ∧
    (∀ c, c ∈ get_palette (some n) true → c ∈ COLOR_CYCLE ∧ isHexColor c = true) ∧
    get_palette (some 5) true = List.take 5 COLOR_CYCLE ∧
    List.drop 10 (get_palette (some 15) true) = List.take 5 COLOR_CYCLE := by
  have hhex : ∀ x ∈ COLOR_CYCLE, isHexColor x = true := by decide
  refine ⟨?_, ?_, ?_, by decide, by decide⟩
  · rw [get_palette_some_true]
    simp
  · intro i hi
    rw [get_palette_some_true]
    have hlen : i < ((List.range n).map
        (fun j => COLOR_CYCLE.getD (j % COLOR_CYCLE.length) "")).length := by
      simpa using hi
    rw [List.getD_eq_getElem _ _ hlen, List.getElem_map, List.getElem_range]
    rfl
  · intro c hc
    rw [get_palette_some_true] at hc
    obtain ⟨i, _, rfl⟩ := List.mem_map.mp hc
    have hmod : i % COLOR_CYCLE.length < COLOR_CYCLE.length := Nat.mod_lt _ (by decide)
    have hmem : COLOR_CYCLE.getD (i % COLOR_CYCLE.length) "" ∈ COLOR_CYCLE := by
      rw [List.getD_eq_getElem _ _ hmod]
      exact List.getElem_mem hmod
    exact ⟨hmem, hhex _ hmem⟩

/-- Witness for C9: entry 11 of `get_palette 15` equals entry 1 of the
base cycle. -/
theorem get_palette_cycles_witness :
    (get_palette (some 15) true).getD 10 "" = COLOR_CYCLE.getD (10 % 10) "" :=
  (get_palette_cycles 15).2.1 10 (by decide)

/-- C10: for every `n ≥ 4`, the palette returned by
`get_palette n include_accent=False` (and by `get_water_palette n`) still
contains the gold accent `#CCA361`: the `include_accent=False` branch
removes the element at index 5 of the cycle (`#4A7858`, a dark green)
while the gold accent sits at index 3, so the water-only palette keeps the
gold accent at index 3. -/
theorem water_palette_keeps_gold (n : ℕ) (h : 4 ≤ n) :
    "#CCA361" ∈ get_palette (some n) false ∧
    "#CCA361" ∈ get_water_palette (some n) ∧
    COLOR_CYCLE.getD 5 "" = "#4A7858" ∧
    COLOR_CYCLE.getD 3 "" = "#CCA361" ∧
    waterPalette.getD 3 "" = "#CCA361" ∧
    waterPalette = ["#7BA898", "#8EC4D4", "#4A7088", "#CCA361", "#8FBA70",
      "#6BA8B0", "#D4A868", "#5A9A78", "#7AA0B0"] := by
  have hmem : "#CCA361" ∈ get_palette (some n) false := by
    rw [get_palette_some_false]
    refine List.mem_map.mpr ⟨3, List.mem_range.mpr (by omega), ?_⟩
    decide
  exact ⟨hmem, hmem, by decide, by decide, by decide, by decide⟩

/-- Witness for C10: the conclusion at `n = 4`. -/
theorem water_palette_keeps_gold_witness :
    4 ≤ 4 ∧ "#CCA361" ∈ get_palette (some 4) false :=
  ⟨by decide, (water_palette_keeps_gold 4 (by decide)).1⟩

end ArrakisNight
